import Mathlib

set_option maxHeartbeats 1000000
set_option maxRecDepth 4000

/-!
Shallow embedding of the NOTAM ingestion engine of `src/faa_notam_lib.py`
(class `FAAClient`): token lifecycle (`_authenticate`), field normalization,
multi-mode search filtering and deduplication (`search_notams`), together
with theorems checking the natural-language specification against it.

Strings are modelled as `List Char` (ASCII payloads).  Python regular
expressions appearing in the source are embedded as executable scanners over
`List Char`; a user-supplied pattern (only its compiled success/failure and
its match function matter to the code) is modelled by an abstract
`compile : List Char → Option (List Char → Bool)` parameter, where `none`
stands for a pattern on which `re.compile`/`re.search` raises `re.error`.
-/

abbrev Str := List Char

/-- Python `str.upper()`, per character (ASCII payloads). -/
def upperStr (s : Str) : Str := s.map Char.toUpper

/-- Whitespace stripped by Python `str.strip()` / matched by `\s` (ASCII). -/
def isWs (c : Char) : Bool :=
  c == ' ' || c == '\t' || c == '\n' || c == '\r' || c == '\x0b' || c == '\x0c'

/-- Python `str.strip()`. -/
def stripStr (s : Str) : Str :=
  ((s.dropWhile isWs).reverse.dropWhile isWs).reverse

/-- Boolean list-prefix test: Python `str.startswith`. -/
def isPrefixOfB : Str → Str → Bool
  | [], _ => true
  | _ :: _, [] => false
  | a :: as, b :: bs => a == b && isPrefixOfB as bs

/-- Python substring test `needle in hay`. -/
def containsSub (needle : Str) : Str → Bool
  | [] => needle.isEmpty
  | c :: t => isPrefixOfB needle (c :: t) || containsSub needle t

/-- Drop `tok` from the front of a string, observing whether it was a prefix. -/
def dropPrefixCh : Str → Str → Option Str
  | [], s => some s
  | _ :: _, [] => none
  | a :: as, b :: bs => if a == b then dropPrefixCh as bs else none

/-- Python `str.isdigit()` (ASCII): nonempty and all decimal digits. -/
def isDigitsB (s : Str) : Bool := !s.isEmpty && s.all Char.isDigit

/-- Python `s.split('/')`. -/
def splitSlash : Str → List Str
  | [] => [[]]
  | c :: t =>
    if c == '/' then [] :: splitSlash t
    else
      match splitSlash t with
      | [] => [[c]]
      | h :: r => (c :: h) :: r

/-- Left-pad with `'0'` to width `n`. -/
def padZeros (n : Nat) (s : Str) : Str := List.replicate (n - s.length) '0' ++ s

/-- Python `str(x).zfill(3)` (sign-aware zero padding), line 136 of the source. -/
def zfill3 (s : Str) : Str :=
  match s with
  | [] => padZeros 3 []
  | c :: t => if c == '+' || c == '-' then c :: padZeros 2 t else padZeros 3 (c :: t)

/- String literals used by the source. -/

def strSuccess : Str := "Success".toList
def strPERM : Str := "PERM".toList
def strNum0000 : Str := "0000".toList
def strN : Str := "N".toList
def strC : Str := "C".toList
def str26 : Str := "26".toList
def strDOM : Str := "DOM".toList
def strINTL : Str := "INTL".toList
def strXXXXX : Str := "XXXXX".toList
def strXXXX : Str := "XXXX".toList
def strIV : Str := "IV".toList
def strNBO : Str := "NBO".toList
def strA : Str := "A".toList
def strK : Str := "K".toList
def str000 : Str := "000".toList
def str999 : Str := "999".toList
def strNoCoord : Str := "XXXXX/...".toList
def strActive : Str := "Active".toList
def strQsp : Str := "Q) ".toList
def strSpNOTAM : Str := " NOTAM".toList
def strRWY : Str := "RWY".toList
def strRUNWAY : Str := "RUNWAY".toList
def strAll : Str := "all".toList
def strRunwayMode : Str := "runway".toList
def strKeyword : Str := "keyword".toList

/-- Characters deleted by `re.sub(r'[-:T]', '', dt_str)` (source lines 106-109). -/
def notDashColonT (c : Char) : Bool := !(c == '-' || c == ':' || c == 'T')

/-- `icao_date` (source lines 106-109): empty input yields `"PERM"`, otherwise
strip `-`, `:`, `T` and take the Python slice `[2:12]` of the result. -/
def icao_date (s : Str) : Str :=
  if s = [] then strPERM
  else ((s.filter notDashColonT).take 12).drop 2

/-! ## Token Manager (`FAAClient._authenticate`, source lines 15-24)

The cached state is `(_access_token, _expires_at)`.  The HTTP exchange is
modelled by an `AuthResponse` (a successful token-endpoint response body);
`authenticate` returns the updated state together with a flag recording
whether a network request was issued.  Time is an integer number of epoch
seconds (the source compares `time.time()` and stores `int(time.time())`;
both are modelled by the same `now`). -/

structure TokenState where
  accessToken : Option Str
  expiresAt : Int
deriving DecidableEq

structure AuthResponse where
  access_token : Str
  expires_in : Option Int
deriving DecidableEq

/-- Python truthiness of `self._access_token` (None or empty string is falsy). -/
def tokenTruthy : Option Str → Bool
  | none => false
  | some s => !s.isEmpty

/-- `_authenticate` (source lines 15-24): return the cached state untouched when
`self._access_token and time.time() < self._expires_at - 60`; otherwise perform
the credential exchange and set
`_expires_at = int(time.time()) + int(data.get('expires_in', 1799))`. -/
def authenticate (st : TokenState) (now : Int) (resp : AuthResponse) :
    TokenState × Bool :=
  if tokenTruthy st.accessToken = true ∧ now < st.expiresAt - 60 then (st, false)
  else ({ accessToken := some resp.access_token
          expiresAt := now + resp.expires_in.getD 1799 }, true)

/-! ## Data model (`search_notams`, source lines 39-177)

A `RawFeature` is reached through `properties.coreNOTAMData`; only its
`notam` sub-object and the `formattedText` of the first entry of
`notamTranslation` are consumed.  Every upstream field may be absent, which
is modelled by `Option Str` (`none` = key missing; the code's `.get`
defaults are applied by the accessors below). -/

structure Notam where
  text : Option Str
  series : Option Str
  number : Option Str
  year : Option Str
  type : Option Str
  location : Option Str
  effectiveStart : Option Str
  effectiveEnd : Option Str
  status : Option Str
  schedule : Option Str
  classification : Option Str
  selectionCode : Option Str
  affectedFir : Option Str
  traffic : Option Str
  purpose : Option Str
  scope : Option Str
  minimumFl : Option Str
  maximumFl : Option Str
  coordinates : Option Str
  radius : Option Str
deriving DecidableEq

/-- One feed feature: the `notam` object plus the `formattedText` entries of
`notamTranslation` (each entry already reduced to its `formattedText`,
defaulted to the empty string when the key is missing). -/
structure Feature where
  notam : Notam
  translations : List Str
deriving DecidableEq

/-- The decoded feed body: top-level `status` and `data.geojson`
(defaulted to `[]` when absent). -/
structure RawFeed where
  status : Option Str
  features : List Feature
deriving DecidableEq

/-- Internal record as built at source lines 139-152, `_n_key` included. -/
structure RecI where
  id : Str
  location : Str
  start : Str
  endTime : Str
  text : Str
  full_icao : Str
  status : Str
  q_line : Str
  schedule : Str
  keyword : Str
  classification : Str
  nKey : Str × Str × Str × Str
deriving DecidableEq

/-- Emitted record, after `n.pop('_n_key', None)` (source lines 174-175). -/
structure NotamOut where
  id : Str
  location : Str
  start : Str
  endTime : Str
  text : Str
  full_icao : Str
  status : Str
  q_line : Str
  schedule : Str
  keyword : Str
  classification : Str
deriving DecidableEq

def toOut (r : RecI) : NotamOut :=
  ⟨r.id, r.location, r.start, r.endTime, r.text, r.full_icao, r.status,
   r.q_line, r.schedule, r.keyword, r.classification⟩

/-- `translations[0].get('formattedText', '') if translations else ''`
(source line 58). -/
def formattedOf (f : Feature) : Str :=
  match f.translations with
  | [] => []
  | t :: _ => t

/-- `full_text = f"{raw_text} {formatted}".upper()` (source line 60). -/
def fullTextOf (f : Feature) : Str :=
  upperStr ((f.notam.text.getD []) ++ (' ' :: formattedOf f))

/-- Year-suffix cleanup of the number (source lines 94-97):
`if '/' in number: parts = number.split('/');
 if len(parts) == 2 and parts[1].isdigit() and len(parts[1]) <= 2: number = parts[0]`. -/
def cleanNumber (number : Str) : Str :=
  if number.contains '/' then
    match splitSlash number with
    | [a, b] => if isDigitsB b && decide (b.length ≤ 2) then a else number
    | _ => number
  else number

/-- Series-prefix strip (source lines 89-91):
`if series and raw_num.startswith(series): number = raw_num[len(series):]`. -/
def stripSeries (series num : Str) : Str :=
  if series ≠ [] ∧ isPrefixOfB series num = true then num.drop series.length else num

/-- Year reduction (source line 100):
`raw_year[-2:] if len(raw_year) > 2 else raw_year`. -/
def normYear (rawYear : Str) : Str :=
  if rawYear.length > 2 then rawYear.drop (rawYear.length - 2) else rawYear

/-- ID reconstruction (source lines 87-101 and 140): series-prefix strip,
year-suffix cleanup, year reduction (with the `"26"` fallback at line 101),
and the final `f"{series}{number}/{year} NOTAM{type_code}"`. -/
def buildId (seriesF numberF yearF : Option Str) (typeCode : Str) : Str :=
  let series := stripStr (seriesF.getD [])
  let number := cleanNumber (stripSeries series (stripStr (numberF.getD strNum0000)))
  let year1 := normYear (stripStr (yearF.getD []))
  let year := if year1 = [] then str26 else year1
  series ++ number ++ ('/' :: year) ++ strSpNOTAM ++ typeCode

/-- Location normalization for dedup (source line 117):
`loc_str if loc_str.startswith('K') and len(loc_str) == 4 else
 (f"K{loc_str}" if len(loc_str) == 3 else loc_str)`. -/
def normLoc (locStr : Str) : Str :=
  if isPrefixOfB strK locStr = true ∧ locStr.length = 4 then locStr
  else if locStr.length = 3 then 'K' :: locStr
  else locStr

/-- Timestamp normalization for dedup (source lines 123-124):
`s.replace('Z', '').split('.')[0]`. -/
def normTime (s : Str) : Str :=
  (s.filter (fun c => !(c == 'Z'))).takeWhile (fun c => !(c == '.'))

/-- Subject code (source line 125): `q_code[1:3] if len(q_code) >= 3 else q_code`. -/
def subjCode (q : Str) : Str :=
  if 3 ≤ q.length then (q.drop 1).take 2 else q

/-- Q-line reconstruction (source lines 128-137). -/
def buildQLine (n : Notam) : Str :=
  let fir := n.affectedFir.getD strXXXX
  let qCode := n.selectionCode.getD strXXXXX
  let traffic := n.traffic.getD strIV
  let purpose := n.purpose.getD strNBO
  let scope := n.scope.getD strA
  let low := n.minimumFl.getD str000
  let high := n.maximumFl.getD str999
  let coord := n.coordinates.getD []
  let radius := n.radius.getD []
  let qCoord := if coord ≠ [] then coord ++ zfill3 radius else strNoCoord
  strQsp ++ fir ++ ('/' :: qCode) ++ ('/' :: traffic) ++ ('/' :: purpose) ++
    ('/' :: scope) ++ ('/' :: low) ++ ('/' :: high) ++ ('/' :: qCoord)

/-- Build the `new_notam` dict (source lines 86-152) from one feature. -/
def mkRec (f : Feature) : RecI :=
  let n := f.notam
  let typeCode := n.type.getD strN
  let effStart := n.effectiveStart.getD []
  let effEnd := n.effectiveEnd.getD []
  let locStr := upperStr (n.location.getD [])
  let qCode := n.selectionCode.getD strXXXXX
  { id := buildId n.series n.number n.year typeCode
    location := locStr
    start := icao_date effStart
    endTime := icao_date effEnd
    text := n.text.getD []
    full_icao := formattedOf f
    status := n.status.getD strActive
    q_line := buildQLine n
    schedule := n.schedule.getD []
    keyword := qCode
    classification := n.classification.getD strDOM
    nKey := (subjCode qCode, normTime effStart, normTime effEnd, normLoc locStr) }

/-- `re.sub(r'^' + re.escape(loc_str) + r'\s*', '', s)` (source lines 158-159):
remove one leading occurrence of the location code and trailing whitespace. -/
def stripLeadLoc (loc s : Str) : Str :=
  match dropPrefixCh loc s with
  | some rest => rest.dropWhile isWs
  | none => s

/-- Text-similarity check of the dedup loop (source lines 158-162), with
`loc` the location string of the incoming record:
`t1 in t2 or t2 in t1 or abs(len(t1) - len(t2)) < 30`. -/
def similarB (loc t1 t2 : Str) : Bool :=
  let u1 := upperStr (stripLeadLoc loc (stripStr t1))
  let u2 := upperStr (stripLeadLoc loc (stripStr t2))
  containsSub u1 u2 || containsSub u2 u1 || decide (Nat.dist u1.length u2.length < 30)

/-- The dedup loop of source lines 154-169 for one incoming record `r`:
find the first already-emitted record with equal `_n_key` and similar text;
at that slot keep `r` iff `classification == 'INTL'` or `r`'s id is strictly
longer, else keep the existing record.  `none` means no merge slot exists. -/
def mergeInto (r : RecI) : List RecI → Option (List RecI)
  | [] => none
  | e :: rest =>
    if e.nKey = r.nKey ∧ similarB r.location e.text r.text = true then
      some ((if r.classification = strINTL ∨ e.id.length < r.id.length then r else e) :: rest)
    else
      match mergeInto r rest with
      | some rest2 => some (e :: rest2)
      | none => none

/-- Source lines 166-171: merge in place when a slot was found, else append. -/
def insertRec (acc : List RecI) (r : RecI) : List RecI :=
  match mergeInto r acc with
  | some merged => merged
  | none => acc ++ [r]

/-! ## Search filter (source lines 50-83)

`\w`, `\b`, `\d` are ASCII here.  `findTok tok pb pa t` scans `t` for an
occurrence of the literal token `tok` whose neighbouring characters satisfy
`pb` (character before, `none` at the start) and `pa` (character after,
`none` at the end); it is the executable embedding of the two fixed regex
shapes of the source. -/

def isWordChar (c : Char) : Bool := c.isAlphanum || c == '_'

def notWordOpt : Option Char → Bool
  | none => true
  | some c => !isWordChar c

def notDigitOpt : Option Char → Bool
  | none => true
  | some c => !c.isDigit

def matchHereTok (tok : Str) (pb pa : Option Char → Bool)
    (prev : Option Char) (s : Str) : Bool :=
  match dropPrefixCh tok s with
  | some rest => pb prev && pa rest.head?
  | none => false

def findTokAux (tok : Str) (pb pa : Option Char → Bool) :
    Option Char → Str → Bool
  | prev, [] => matchHereTok tok pb pa prev []
  | prev, c :: t =>
    matchHereTok tok pb pa prev (c :: t) || findTokAux tok pb pa (some c) t

def findTok (tok : Str) (pb pa : Option Char → Bool) (s : Str) : Bool :=
  findTokAux tok pb pa none s

/-- `re.search(r"\bRWY\b|\bRUNWAY\b", full_text)` (source line 66). -/
def hasRwyWord (t : Str) : Bool :=
  findTok strRWY notWordOpt notWordOpt t || findTok strRUNWAY notWordOpt notWordOpt t

/-- `re.search(r"(?<!\d)" + re.escape(query_upper) + r"(?![0-9])", full_text)`
(source lines 70-71). -/
def hasNumToken (q t : Str) : Bool := findTok q notDigitOpt notDigitOpt t

/-- `re.search(pat, text, re.IGNORECASE)` for a user-supplied pattern:
`compile pat = none` models a pattern on which `re` raises `re.error`. -/
def reSearch (compile : Str → Option (Str → Bool)) (pat text : Str) :
    Except Unit Bool :=
  match compile pat with
  | none => Except.error ()
  | some f => Except.ok (f text)

/-- The per-record match decision (source lines 50-83), with
`query_str = str(query).strip()` and
`query_upper = query_str.upper() if not is_regex else ""`.
`Except.error ()` models an uncaught `re.error`. -/
def searchMatch (compile : Str → Option (Str → Bool)) (query : Str)
    (searchType : Str) (isRegex : Bool) (fullText : Str) : Except Unit Bool :=
  let queryStr := stripStr query
  let queryUpper := if isRegex then [] else upperStr queryStr
  if queryStr = [] ∨ searchType = strAll then Except.ok true
  else if searchType = strRunwayMode then
    let hasRwy := hasRwyWord fullText
    match (if isRegex then reSearch compile queryStr fullText
           else Except.ok (hasNumToken queryUpper fullText)) with
    | Except.error e => Except.error e
    | Except.ok hasNum => Except.ok (hasRwy && hasNum)
  else
    if isRegex then
      match reSearch compile queryStr fullText with
      | Except.ok b => Except.ok b
      | Except.error _ => Except.ok (containsSub queryUpper fullText)
    else Except.ok (containsSub queryUpper fullText)

/-- The main loop of `search_notams` (source lines 53-171) over the feature
list, carrying `filtered_list` as `acc`.  A feature is consulted for a match
first; a matching feature of type `'C'` is then skipped (`continue`), any
other matching feature is inserted through the dedup loop. -/
def processFeatures (compile : Str → Option (Str → Bool)) (query searchType : Str)
    (isRegex : Bool) : List Feature → List RecI → Except Unit (List RecI)
  | [], acc => Except.ok acc
  | f :: rest, acc =>
    match searchMatch compile query searchType isRegex (fullTextOf f) with
    | Except.error e => Except.error e
    | Except.ok m =>
      processFeatures compile query searchType isRegex rest
        (if m then
           (if f.notam.type.getD strN = strC then acc else insertRec acc (mkRec f))
         else acc)

/-- `search_notams` up to the final `_n_key` cleanup: lines 43-45 (the
`status != "Success"` early return) plus the main loop. -/
def searchI (compile : Str → Option (Str → Bool)) (feed : RawFeed)
    (query searchType : Str) (isRegex : Bool) : Except Unit (List RecI) :=
  if feed.status ≠ some strSuccess then Except.ok []
  else processFeatures compile query searchType isRegex feed.features []

/-- `FAAClient.search_notams` (source lines 39-177), with the feed supplied
as input (the network fetch is outside the embedding): the internal run
followed by the `_n_key` pop of lines 173-175. -/
def search_notams (compile : Str → Option (Str → Bool)) (feed : RawFeed)
    (query searchType : Str) (isRegex : Bool) : Except Unit (List NotamOut) :=
  (searchI compile feed query searchType isRegex).map (List.map toOut)

/-! ## Concrete inputs used by examples, counterexamples and witnesses -/

/-- An instantiation of the abstract pattern-compiler on which every pattern
fails to compile (as `"("` does under Python `re`). -/
def compileNone : Str → Option (Str → Bool) := fun _ => none

def dateEx1 : Str := "2026-02-23T17:00:00".toList
def dateOut1 : Str := "2602231700".toList

def txtShared : Str := "JFK RWY 07L/25R CLSD DUE TO CONSTRUCTION".toList

def notam0 : Notam :=
  { text := some txtShared, series := none, number := none, year := none,
    type := none, location := none, effectiveStart := none, effectiveEnd := none,
    status := none, schedule := none, classification := none, selectionCode := none,
    affectedFir := none, traffic := none, purpose := none, scope := none,
    minimumFl := none, maximumFl := none, coordinates := none, radius := none }

/-- INTL record with a populated series: id `"A0041/26 NOTAMN"`. -/
def featLongIntl : Feature :=
  { notam := { notam0 with
      series := some strA
      number := some (r"0041".toList)
      year := some str26
      location := some (r"JFK".toList)
      effectiveStart := some (r"2026-01-01T00:00:00".toList)
      effectiveEnd := some (r"2026-02-01T00:00:00".toList)
      classification := some strINTL
      selectionCode := some (r"QMRLC".toList) }
    translations := [] }

/-- Same notice without the series prefix: id `"41/26 NOTAMN"`, same dedup key. -/
def featShortIntl : Feature :=
  { featLongIntl with notam := { featLongIntl.notam with
      series := some []
      number := some (r"41".toList) } }

def feedC1 : RawFeed := { status := some strSuccess, features := [featLongIntl, featShortIntl] }

/-! ## C8 — date normalization -/

/-- C8: for every input string, `icao_date` strips all `-`, `:`, `T`
characters and returns the characters at offsets 2 through 12 of the result;
empty input yields the literal `"PERM"`.  In particular
`icao_date "2026-02-23T17:00:00" = "2602231700"` and `icao_date "" = "PERM"`. -/
theorem icao_date_spec :
    (∀ s : Str, icao_date s =
       if s = [] then strPERM else ((s.filter notDashColonT).drop 2).take 10)
    ∧ icao_date dateEx1 = dateOut1 ∧ icao_date [] = strPERM := by
  refine ⟨fun s => ?_, by decide, by decide⟩
  by_cases h : s = []
  · simp [icao_date, h]
  · simp [icao_date, h, List.drop_take]

/-! ## C9 — non-success feed status -/

/-- C9: whenever the feed's top-level `status` is not `"Success"`,
`search_notams` returns the empty list (no error), whatever the feed content,
query, search mode or regex flag. -/
theorem non_success_empty :
    ∀ (compile : Str → Option (Str → Bool)) (feed : RawFeed) (query st : Str)
      (ir : Bool), feed.status ≠ some strSuccess →
      search_notams compile feed query st ir = Except.ok [] := by
  intro compile feed query st ir h
  simp [search_notams, searchI, h, Except.map]

def feedErr : RawFeed :=
  { status := some (r"Error".toList), features := [featLongIntl] }

theorem non_success_empty_witness :
    feedErr.status ≠ some strSuccess
    ∧ search_notams compileNone feedErr [] strKeyword false = Except.ok [] :=
  ⟨by decide, non_success_empty compileNone feedErr [] strKeyword false (by decide)⟩

/-! ## C10 — token caching -/

/-- C10: `authenticate` returns the cached token unchanged without issuing a
request when a (truthy) token is cached and `now < expiresAt - 60`; in every
other state it performs the exchange and sets
`expiresAt = now + expires_in` with `expires_in` defaulting to 1799 when the
response omits it.  Consequently a second call made before the freshly
computed expiry minus the 60-second margin issues no further request. -/
theorem token_caching :
    (∀ (st : TokenState) (now : Int) (resp : AuthResponse),
       tokenTruthy st.accessToken = true → now < st.expiresAt - 60 →
       authenticate st now resp = (st, false))
    ∧ (∀ (st : TokenState) (now : Int) (resp : AuthResponse),
       ¬ (tokenTruthy st.accessToken = true ∧ now < st.expiresAt - 60) →
       authenticate st now resp =
         ({ accessToken := some resp.access_token
            expiresAt := now + resp.expires_in.getD 1799 }, true))
    ∧ (∀ (st : TokenState) (now : Int) (resp : AuthResponse) (now2 : Int)
         (resp2 : AuthResponse),
       ¬ (tokenTruthy st.accessToken = true ∧ now < st.expiresAt - 60) →
       resp.access_token ≠ [] →
       now2 < now + resp.expires_in.getD 1799 - 60 →
       authenticate (authenticate st now resp).1 now2 resp2 =
         ((authenticate st now resp).1, false)) := by
  refine ⟨?_, ?_, ?_⟩
  · intro st now resp h1 h2
    unfold authenticate
    rw [if_pos ⟨h1, h2⟩]
  · intro st now resp h
    unfold authenticate
    rw [if_neg h]
  · intro st now resp now2 resp2 h h1 h2
    have e : authenticate st now resp =
        ({ accessToken := some resp.access_token
           expiresAt := now + resp.expires_in.getD 1799 }, true) := by
      unfold authenticate
      rw [if_neg h]
    have ht : tokenTruthy (some resp.access_token) = true := by
      cases hx : resp.access_token with
      | nil => exact absurd hx h1
      | cons a t => simp [tokenTruthy, hx]
    rw [e]
    unfold authenticate
    rw [if_pos ⟨ht, h2⟩]

def stCached : TokenState := { accessToken := some strA, expiresAt := 1000 }

def respEx : AuthResponse := { access_token := strA, expires_in := none }

theorem token_caching_witness :
    (tokenTruthy stCached.accessToken = true ∧ (100 : Int) < stCached.expiresAt - 60
      ∧ authenticate stCached 100 respEx = (stCached, false))
    ∧ (¬ (tokenTruthy stCached.accessToken = true ∧ (2000 : Int) < stCached.expiresAt - 60)
      ∧ authenticate stCached 2000 respEx =
          ({ accessToken := some respEx.access_token
             expiresAt := 2000 + respEx.expires_in.getD 1799 }, true))
    ∧ (respEx.access_token ≠ [] ∧ (2100 : Int) < 2000 + respEx.expires_in.getD 1799 - 60
      ∧ authenticate (authenticate stCached 2000 respEx).1 2100 respEx =
          ((authenticate stCached 2000 respEx).1, false)) :=
  ⟨⟨by decide, by decide, token_caching.1 stCached 100 respEx (by decide) (by decide)⟩,
   ⟨by decide, token_caching.2.1 stCached 2000 respEx (by decide)⟩,
   ⟨by decide, by decide,
    token_caching.2.2 stCached 2000 respEx 2100 respEx (by decide) (by decide) (by decide)⟩⟩

/-! ## C7 — location handling -/

/-- C7: the emitted record's `location` is exactly the uppercased upstream
location; the dedup key instead carries `normLoc` of that string, and
`normLoc` prefixes a `K` exactly on strings of length 3 and passes every
other length through unchanged. -/
theorem location_normalization :
    (∀ f : Feature,
       (toOut (mkRec f)).location = upperStr (f.notam.location.getD [])
       ∧ (mkRec f).nKey.2.2.2 = normLoc ((mkRec f).location))
    ∧ (∀ s : Str, normLoc s = if s.length = 3 then 'K' :: s else s) := by
  constructor
  · intro f
    exact ⟨rfl, rfl⟩
  · intro s
    unfold normLoc
    split_ifs with h1 h2 h3 <;> first | rfl | omega

/-! ## C1 — merge tie-break -/

/-- C1 counterexample: two INTL records with the same dedup key and identical
text, the first with the longer id (`"A0041/26 NOTAMN"`), the second with the
shorter id (`"41/26 NOTAMN"`).  The output retains the second, shorter-id
record: among two INTL records it is not the longer id that survives, the
incoming record always wins once it is classified INTL. -/
theorem merge_tiebreak_cex :
    searchI compileNone feedC1 [] strKeyword false = Except.ok [mkRec featShortIntl]
    ∧ (mkRec featLongIntl).classification = strINTL
    ∧ (mkRec featShortIntl).classification = strINTL
    ∧ (mkRec featLongIntl).nKey = (mkRec featShortIntl).nKey
    ∧ similarB (mkRec featShortIntl).location (mkRec featLongIntl).text
        (mkRec featShortIntl).text = true
    ∧ (mkRec featShortIntl).id.length < (mkRec featLongIntl).id.length :=
  ⟨rfl, by decide, by decide, by decide, by decide, by decide⟩

/-- C1 (amended): when the incoming record `r` is a merge-candidate with the
already-emitted record `e` (equal dedup key and passing text similarity), the
slot retains `r` exactly when `r` is classified INTL or `r`'s reconstructed id
is strictly longer than `e`'s, and retains `e` otherwise — the decision looks
only at the incoming record's classification. -/
theorem merge_tiebreak_amended :
    ∀ (r e : RecI) (rest : List RecI),
      e.nKey = r.nKey → similarB r.location e.text r.text = true →
      mergeInto r (e :: rest) =
        some ((if r.classification = strINTL ∨ e.id.length < r.id.length then r
               else e) :: rest) := by
  intro r e rest h1 h2
  simp [mergeInto, h1, h2]

theorem merge_tiebreak_amended_witness :
    (mkRec featLongIntl).nKey = (mkRec featShortIntl).nKey
    ∧ similarB (mkRec featShortIntl).location (mkRec featLongIntl).text
        (mkRec featShortIntl).text = true
    ∧ mergeInto (mkRec featShortIntl) [mkRec featLongIntl] =
        some [if (mkRec featShortIntl).classification = strINTL
                ∨ (mkRec featLongIntl).id.length < (mkRec featShortIntl).id.length
              then mkRec featShortIntl else mkRec featLongIntl] :=
  ⟨by decide, by decide,
   merge_tiebreak_amended (mkRec featShortIntl) (mkRec featLongIntl) []
     (by decide) (by decide)⟩

/-! ## C2 — regex fallback -/

def qParen : Str := "(".toList
def textFoo : Str := "FOO BAR".toList

/-- C2 (code behavior at the failing input): with `isRegex` set and a query
that fails to compile, keyword mode does not fall back to substring matching
of the raw query text — because `query_upper` is precomputed as `""` under
`is_regex`, the fallback tests the empty string and accepts every record even
though the raw query text does not occur; and in runway mode the pattern
error propagates uncaught. -/
theorem regex_fallback_eval :
    searchMatch compileNone qParen strKeyword true textFoo = Except.ok true
    ∧ containsSub (upperStr (stripStr qParen)) textFoo = false
    ∧ searchMatch compileNone qParen strRunwayMode true textFoo = Except.error () :=
  ⟨rfl, by decide, rfl⟩


/-! ## C5 — identifier reconstruction -/

/-- Number of `'/'` characters in a string (claim-side reading of
"contains a single `/`"). -/
def countSlash : Str → Nat
  | [] => 0
  | c :: t => (if c == '/' then 1 else 0) + countSlash t

/-- Claim-side number cleanup, in the claim's words: when the remaining
number contains a single `/` and what follows the `/` is a 1-2 digit
string, that suffix is dropped as a duplicated year. -/
def cleanNumberSpec (number : Str) : Str :=
  if countSlash number = 1
      ∧ isDigitsB ((number.dropWhile (fun c => !(c == '/'))).drop 1) = true
      ∧ ((number.dropWhile (fun c => !(c == '/'))).drop 1).length ≤ 2 then
    number.takeWhile (fun c => !(c == '/'))
  else number

/-- Claim-side series strip: drop the series prefix whenever the number
starts with it (no separate nonemptiness test on the series). -/
def dropSeries (series num : Str) : Str :=
  if isPrefixOfB series num = true then num.drop series.length else num

/-- Claim-side "the year reduced to its last two digits". -/
def lastTwo (s : Str) : Str := s.drop (s.length - 2)

theorem splitSlash_ne_nil (s : Str) : splitSlash s ≠ [] := by
  cases s with
  | nil => simp [splitSlash]
  | cons c t =>
    simp only [splitSlash]
    split
    · simp
    · split <;> simp

theorem splitSlash_length (s : Str) : (splitSlash s).length = countSlash s + 1 := by
  induction s with
  | nil => rfl
  | cons c t ih =>
    simp only [splitSlash, countSlash]
    by_cases hc : c == '/'
    · simp [hc, ih]
      omega
    · cases hsp : splitSlash t with
      | nil => exact absurd hsp (splitSlash_ne_nil t)
      | cons h r =>
        have hlen := ih
        rw [hsp] at hlen
        simp [hc, hsp]
        simpa using hlen

theorem countSlash_zero_splitSlash {s : Str} (h : countSlash s = 0) :
    splitSlash s = [s] := by
  induction s with
  | nil => rfl
  | cons c t ih =>
    simp only [countSlash] at h
    by_cases hc : c == '/'
    · simp [hc] at h
    · simp [hc] at h
      simp only [splitSlash, hc]
      simp [ih h]

theorem countSlash_one_splitSlash {s : Str} (h : countSlash s = 1) :
    splitSlash s =
      [s.takeWhile (fun c => !(c == '/')),
       (s.dropWhile (fun c => !(c == '/'))).drop 1] := by
  induction s with
  | nil => simp [countSlash] at h
  | cons c t ih =>
    simp only [countSlash] at h
    by_cases hc : c == '/'
    · simp [hc] at h
      simp only [splitSlash, hc, if_pos]
      rw [countSlash_zero_splitSlash h]
      simp [List.takeWhile_cons, List.dropWhile_cons, hc]
    · simp [hc] at h
      simp only [splitSlash, hc]
      rw [ih h]
      simp [List.takeWhile_cons, List.dropWhile_cons, hc]

theorem contains_false_countSlash {s : Str} (h : s.contains '/' = false) :
    countSlash s = 0 := by
  induction s with
  | nil => rfl
  | cons c t ih =>
    rw [List.contains_cons] at h
    rcases Bool.or_eq_false_iff.1 h with ⟨h1, h2⟩
    have hc : (c == '/') = false := by
      cases hx : c == '/'
      · rfl
      · have hcc : c = '/' := beq_iff_eq.1 hx
        rw [hcc] at h1
        simp at h1
    simp [countSlash, hc, ih h2]

/-- The source's year-suffix cleanup (Python `split('/')` plus the
`len(parts) == 2` test) coincides with the claim's single-slash /
1-2-digit-suffix description. -/
theorem cleanNumber_eq_spec (s : Str) : cleanNumber s = cleanNumberSpec s := by
  by_cases hc : s.contains '/' = true
  · cases hsp : splitSlash s with
    | nil => exact absurd hsp (splitSlash_ne_nil s)
    | cons a r =>
      cases r with
      | nil =>
        have hl := splitSlash_length s
        rw [hsp] at hl
        simp at hl
        have hcode : cleanNumber s = s := by
          unfold cleanNumber
          rw [if_pos hc, hsp]
        rw [hcode]
        unfold cleanNumberSpec
        rw [if_neg (fun hx => absurd hx.1 (by omega))]
      | cons b r2 =>
        cases r2 with
        | nil =>
          have hl := splitSlash_length s
          rw [hsp] at hl
          simp at hl
          have h1 : countSlash s = 1 := by omega
          have hforms := countSlash_one_splitSlash h1
          rw [hsp] at hforms
          injection hforms with ha hforms
          injection hforms with hb _
          have hcode : cleanNumber s =
              if (isDigitsB b && decide (b.length ≤ 2)) = true then a else s := by
            unfold cleanNumber
            rw [if_pos hc, hsp]
          rw [hcode]
          unfold cleanNumberSpec
          rw [← ha, ← hb]
          by_cases hcond : isDigitsB b = true ∧ b.length ≤ 2
          · rw [if_pos (by simp [hcond.1, hcond.2]), if_pos ⟨h1, hcond.1, hcond.2⟩]
          · have hb2 : ¬ ((isDigitsB b && decide (b.length ≤ 2)) = true) := by
              intro hx
              rcases (Bool.and_eq_true _ _).mp hx with ⟨hx1, hx2⟩
              exact hcond ⟨hx1, of_decide_eq_true hx2⟩
            rw [if_neg hb2, if_neg (fun hx => hcond ⟨hx.2.1, hx.2.2⟩)]
        | cons d r3 =>
          have hl := splitSlash_length s
          rw [hsp] at hl
          simp at hl
          have hcode : cleanNumber s = s := by
            unfold cleanNumber
            rw [if_pos hc, hsp]
          rw [hcode]
          unfold cleanNumberSpec
          rw [if_neg (fun hx => absurd hx.1 (by omega))]
  · have hf : s.contains '/' = false := by
      cases hx : s.contains '/'
      · rfl
      · exact absurd hx hc
    have h0 : countSlash s = 0 := contains_false_countSlash hf
    have hcode : cleanNumber s = s := by
      unfold cleanNumber
      rw [if_neg hc]
    rw [hcode]
    unfold cleanNumberSpec
    rw [if_neg (fun hx => absurd hx.1 (by omega))]

/-- The source's guarded series strip (nonempty series and prefix test)
equals the claim's unconditional prefix strip. -/
theorem stripSeries_eq_dropSeries (series num : Str) :
    stripSeries series num = dropSeries series num := by
  unfold stripSeries dropSeries
  by_cases hs : series = []
  · subst hs
    rw [if_neg (fun hx => hx.1 rfl), if_pos (show isPrefixOfB [] num = true from rfl)]
    simp
  · by_cases hp : isPrefixOfB series num = true
    · rw [if_pos ⟨hs, hp⟩, if_pos hp]
    · rw [if_neg (fun hx => hp hx.2), if_neg hp]

/-- The source's `raw_year[-2:] if len(raw_year) > 2 else raw_year` equals
"the last two characters" on every string. -/
theorem normYear_eq_lastTwo (s : Str) : normYear s = lastTwo s := by
  unfold normYear lastTwo
  by_cases h : s.length > 2
  · rw [if_pos h]
  · rw [if_neg h]
    have : s.length - 2 = 0 := by omega
    rw [this, List.drop_zero]

theorem lastTwo_ne_nil {s : Str} (h : s ≠ []) : lastTwo s ≠ [] := by
  apply List.ne_nil_of_length_pos
  have h1 : 0 < s.length := List.length_pos.2 h
  rw [lastTwo, List.length_drop]
  omega

/-- C5: identifier reconstruction.  When a (stripped) year is present, the
reconstructed id is exactly `{series}{number}/{year} NOTAM{type}` where the
number has the series prefix dropped whenever it starts with it, then a
single-`/` 1-2-digit suffix dropped, and the year is reduced to its last two
digits; and the two concrete examples of the claim. -/
theorem notam_id_reconstruction :
    (∀ (se nu yr : Option Str) (tc : Str), stripStr (yr.getD []) ≠ [] →
       buildId se nu yr tc =
         stripStr (se.getD []) ++
           cleanNumberSpec (dropSeries (stripStr (se.getD []))
             (stripStr (nu.getD strNum0000))) ++
           ('/' :: lastTwo (stripStr (yr.getD []))) ++ strSpNOTAM ++ tc)
    ∧ buildId (some strA) (some (r"A0041/26".toList)) (some (r"2026".toList)) strN =
        "A0041/26 NOTAMN".toList
    ∧ buildId (some []) (some (r"0164".toList)) (some str26) strN =
        "0164/26 NOTAMN".toList := by
  refine ⟨?_, by decide, by decide⟩
  intro se nu yr tc hy
  simp only [buildId]
  rw [stripSeries_eq_dropSeries, cleanNumber_eq_spec, normYear_eq_lastTwo,
    if_neg (lastTwo_ne_nil hy)]

theorem notam_id_reconstruction_witness :
    stripStr ((some (r"2026".toList)).getD []) ≠ []
    ∧ buildId (some strA) (some (r"A0041/26".toList)) (some (r"2026".toList)) strN =
        stripStr ((some strA).getD []) ++
          cleanNumberSpec (dropSeries (stripStr ((some strA).getD []))
            (stripStr ((some (r"A0041/26".toList)).getD strNum0000))) ++
          ('/' :: lastTwo (stripStr ((some (r"2026".toList)).getD []))) ++
          strSpNOTAM ++ strN :=
  ⟨by decide,
   notam_id_reconstruction.1 (some strA) (some (r"A0041/26".toList))
     (some (r"2026".toList)) strN (by decide)⟩

/-! ## C4 — runway-mode matching

The two regexes of the runway branch are characterized against claim-side
occurrence predicates: a token occurrence inside the text whose neighbouring
characters satisfy boundary predicates. -/

/-- The character immediately before the current position: last character of
`pre`, or `prev` when `pre` is empty. -/
def lastOr (prev : Option Char) : Str → Option Char
  | [] => prev
  | c :: t => lastOr (some c) t

/-- Claim-side occurrence predicate: `t` contains `tok` with the character
just before the occurrence (none at the start of `t`) satisfying `pb` and
the character just after it (none at the end) satisfying `pa`. -/
def TokOccurs (tok : Str) (pb pa : Option Char → Bool) (t : Str) : Prop :=
  ∃ pre post, t = pre ++ tok ++ post
    ∧ pb (lastOr none pre) = true ∧ pa post.head? = true

theorem dropPrefixCh_eq_some {tok : Str} :
    ∀ {s rest : Str}, dropPrefixCh tok s = some rest ↔ s = tok ++ rest := by
  induction tok with
  | nil =>
    intro s rest
    simp [dropPrefixCh]
  | cons a as ih =>
    intro s rest
    cases s with
    | nil =>
      simp [dropPrefixCh]
    | cons b bs =>
      simp only [dropPrefixCh]
      by_cases hab : (a == b) = true
      · have : a = b := beq_iff_eq.1 hab
        subst this
        rw [if_pos hab]
        simp [ih]
      · rw [if_neg hab]
        simp only [List.cons_append]
        constructor
        · intro h; exact absurd h (by simp)
        · intro h
          injection h with h1 _
          exact absurd (beq_iff_eq.2 h1.symm) hab

theorem matchHereTok_iff {tok : Str} {pb pa : Option Char → Bool}
    {prev : Option Char} {s : Str} :
    matchHereTok tok pb pa prev s = true ↔
      ∃ rest, s = tok ++ rest ∧ pb prev = true ∧ pa rest.head? = true := by
  unfold matchHereTok
  split
  next rest heq =>
    have hs : s = tok ++ rest := dropPrefixCh_eq_some.1 heq
    constructor
    · intro hx
      rcases (Bool.and_eq_true _ _).mp hx with ⟨h1, h2⟩
      exact ⟨rest, hs, h1, h2⟩
    · rintro ⟨rest2, hr2, h1, h2⟩
      have hr : rest2 = rest := List.append_cancel_left (by rw [← hr2, ← hs])
      subst hr
      exact (Bool.and_eq_true _ _).mpr ⟨h1, h2⟩
  next heq =>
    constructor
    · intro hx
      exact absurd hx (by simp)
    · rintro ⟨rest, hr, h1, h2⟩
      rw [dropPrefixCh_eq_some.2 hr] at heq
      exact absurd heq (by simp)

theorem findTokAux_iff (tok : Str) (pb pa : Option Char → Bool) :
    ∀ (s : Str) (prev : Option Char),
      findTokAux tok pb pa prev s = true ↔
        ∃ pre post, s = pre ++ tok ++ post
          ∧ pb (lastOr prev pre) = true ∧ pa post.head? = true := by
  intro s
  induction s with
  | nil =>
    intro prev
    simp only [findTokAux]
    rw [matchHereTok_iff]
    constructor
    · rintro ⟨rest, hr, h1, h2⟩
      exact ⟨[], rest, by simpa using hr, h1, h2⟩
    · rintro ⟨pre, post, hr, h1, h2⟩
      rcases List.append_eq_nil.mp hr.symm with ⟨hpt, hpost⟩
      rcases List.append_eq_nil.mp hpt with ⟨hpre, htok⟩
      subst hpre
      subst hpost
      exact ⟨[], by simp [htok], h1, h2⟩
  | cons c t ih =>
    intro prev
    simp only [findTokAux]
    rw [Bool.or_eq_true, matchHereTok_iff, ih (some c)]
    constructor
    · rintro (⟨rest, hr, h1, h2⟩ | ⟨pre, post, hr, h1, h2⟩)
      · exact ⟨[], rest, by simpa using hr, h1, h2⟩
      · exact ⟨c :: pre, post, by simp [hr], h1, h2⟩
    · rintro ⟨pre, post, hr, h1, h2⟩
      cases pre with
      | nil =>
        left
        exact ⟨post, by simpa using hr, h1, h2⟩
      | cons c2 pre2 =>
        right
        rw [List.cons_append, List.cons_append] at hr
        injection hr with h3 h4
        subst h3
        exact ⟨pre2, post, h4, h1, h2⟩

theorem findTok_iff (tok : Str) (pb pa : Option Char → Bool) (s : Str) :
    findTok tok pb pa s = true ↔ TokOccurs tok pb pa s := by
  unfold findTok TokOccurs
  exact findTokAux_iff tok pb pa s none

/-- The fixed regex `\bRWY\b|\bRUNWAY\b` holds exactly when a standalone
(word-boundary delimited) `RWY` or `RUNWAY` token occurs. -/
theorem hasRwyWord_iff (t : Str) :
    hasRwyWord t = true ↔
      TokOccurs strRWY notWordOpt notWordOpt t
      ∨ TokOccurs strRUNWAY notWordOpt notWordOpt t := by
  unfold hasRwyWord
  rw [Bool.or_eq_true, findTok_iff, findTok_iff]

/-- The query regex `(?<!\d){query}(?![0-9])` holds exactly when the literal
query occurs with no digit immediately before or after it. -/
theorem hasNumToken_iff (q t : Str) :
    hasNumToken q t = true ↔ TokOccurs q notDigitOpt notDigitOpt t := by
  unfold hasNumToken
  exact findTok_iff q notDigitOpt notDigitOpt t

def q07 : Str := "07".toList
def q07R : Str := "07R".toList
def txtRwy07 : Str := "TWY A CLSD RWY 07 AVBL".toList
def txtRwy075 : Str := "RWY 075 CLSD".toList
def txtRwy07R : Str := "RWY 07R WIP".toList
def txtHello : Str := "HELLO".toList

/-- C4 counterexample: in runway mode with `isRegex` unset and an empty
query, the code matches every record (the empty-query branch fires before the
runway branch), including text with no standalone `RWY`/`RUNWAY` token, so
the claimed "matches if and only if" fails at the empty query. -/
theorem runway_empty_query_cex :
    searchMatch compileNone [] strRunwayMode false txtHello = Except.ok true
    ∧ ¬ (TokOccurs strRWY notWordOpt notWordOpt txtHello
         ∨ TokOccurs strRUNWAY notWordOpt notWordOpt txtHello) := by
  constructor
  · rfl
  · intro hOr
    have hb : hasRwyWord txtHello = true := (hasRwyWord_iff txtHello).2 hOr
    exact absurd hb (by decide)

/-- C4 (amended): in runway mode with `isRegex` unset and a query that is
nonempty after trimming, a record matches exactly when the combined
uppercased text contains a standalone `RWY` or `RUNWAY` token and contains
the uppercased trimmed query with no digit immediately before or after it;
with the claim's three boundary examples. -/
theorem runway_match_amended :
    (∀ (compile : Str → Option (Str → Bool)) (query t : Str),
       stripStr query ≠ [] →
       (searchMatch compile query strRunwayMode false t = Except.ok true ↔
         (TokOccurs strRWY notWordOpt notWordOpt t
           ∨ TokOccurs strRUNWAY notWordOpt notWordOpt t)
         ∧ TokOccurs (upperStr (stripStr query)) notDigitOpt notDigitOpt t))
    ∧ searchMatch compileNone q07 strRunwayMode false txtRwy07 = Except.ok true
    ∧ searchMatch compileNone q07 strRunwayMode false txtRwy075 = Except.ok false
    ∧ searchMatch compileNone q07R strRunwayMode false txtRwy07R = Except.ok true := by
  refine ⟨?_, rfl, rfl, rfl⟩
  intro compile query t hq
  have h1 : ¬ (stripStr query = [] ∨ strRunwayMode = strAll) := by
    rintro (h | h)
    · exact hq h
    · exact absurd h (by decide)
  simp only [searchMatch]
  rw [if_neg h1]
  simp [hasRwyWord_iff, hasNumToken_iff, Bool.and_eq_true]

theorem runway_match_amended_witness :
    stripStr q07 ≠ []
    ∧ (searchMatch compileNone q07 strRunwayMode false txtRwy07 = Except.ok true ↔
        (TokOccurs strRWY notWordOpt notWordOpt txtRwy07
          ∨ TokOccurs strRUNWAY notWordOpt notWordOpt txtRwy07)
        ∧ TokOccurs (upperStr (stripStr q07)) notDigitOpt notDigitOpt txtRwy07) :=
  ⟨by decide, runway_match_amended.1 compileNone q07 txtRwy07 (by decide)⟩

/-! ## Dedup-loop lemmas (C6, C3) -/

/-- A successful merge replaces one slot by the incoming record without
changing the sequence of dedup keys, and every member of the result is an
old member or the incoming record. -/
theorem mergeInto_some_keys {r : RecI} :
    ∀ {acc l : List RecI}, mergeInto r acc = some l →
      l.map RecI.nKey = acc.map RecI.nKey ∧ ∀ x ∈ l, x ∈ acc ∨ x = r := by
  intro acc
  induction acc with
  | nil =>
    intro l h
    simp [mergeInto] at h
  | cons e rest ih =>
    intro l h
    simp only [mergeInto] at h
    split at h
    next hcond =>
      injection h with h
      subst h
      constructor
      · simp only [List.map_cons]
        congr 1
        split
        · exact hcond.1.symm
        · rfl
      · intro x hx
        rcases List.mem_cons.mp hx with hx1 | hx2
        · by_cases hp : r.classification = strINTL ∨ e.id.length < r.id.length
          · rw [if_pos hp] at hx1
            exact Or.inr hx1
          · rw [if_neg hp] at hx1
            exact Or.inl (hx1 ▸ List.mem_cons_self e rest)
        · exact Or.inl (List.mem_cons_of_mem e hx2)
    next hcond =>
      split at h
      next rest2 hrec =>
        injection h with h
        subst h
        rcases ih hrec with ⟨hkeys, hmem⟩
        constructor
        · simp only [List.map_cons, hkeys]
        · intro x hx
          rcases List.mem_cons.mp hx with hx1 | hx2
          · exact Or.inl (hx1 ▸ List.mem_cons_self e rest)
          · rcases hmem x hx2 with hx3 | hx3
            · exact Or.inl (List.mem_cons_of_mem e hx3)
            · exact Or.inr hx3
      next hrec =>
        exact absurd h (by simp)

/-- When no merge slot exists, no already-emitted record passes both the key
test and the similarity test against the incoming record. -/
theorem mergeInto_none {r : RecI} :
    ∀ {acc : List RecI}, mergeInto r acc = none →
      ∀ e ∈ acc, ¬ (e.nKey = r.nKey ∧ similarB r.location e.text r.text = true) := by
  intro acc
  induction acc with
  | nil =>
    intro _ e he
    simp at he
  | cons e2 rest ih =>
    intro h e he
    simp only [mergeInto] at h
    split at h
    next hcond => exact absurd h (by simp)
    next hcond =>
      split at h
      next rest2 hrec => exact absurd h (by simp)
      next hrec =>
        rcases List.mem_cons.mp he with he1 | he2
        · subst he1
          exact hcond
        · exact ih hrec e he2

theorem insertRec_mem {acc : List RecI} {r x : RecI} (hx : x ∈ insertRec acc r) :
    x ∈ acc ∨ x = r := by
  unfold insertRec at hx
  cases hm : mergeInto r acc with
  | some merged =>
    rw [hm] at hx
    exact (mergeInto_some_keys hm).2 x hx
  | none =>
    rw [hm] at hx
    rcases List.mem_append.mp hx with h1 | h2
    · exact Or.inl h1
    · simp at h2
      exact Or.inr h2

/-- Provenance through the main loop: every record of the final list was in
the accumulator already or was built (by `mkRec`) from a processed feature
whose type code is not `'C'`. -/
theorem processFeatures_mem (compile : Str → Option (Str → Bool))
    (query st : Str) (ir : Bool) :
    ∀ (fs : List Feature) (acc l : List RecI),
      processFeatures compile query st ir fs acc = Except.ok l →
      ∀ x ∈ l, x ∈ acc ∨ ∃ f, f ∈ fs ∧ f.notam.type.getD strN ≠ strC ∧ x = mkRec f := by
  intro fs
  induction fs with
  | nil =>
    intro acc l h x hx
    simp only [processFeatures] at h
    injection h with h
    subst h
    exact Or.inl hx
  | cons f rest ih =>
    intro acc l h x hx
    simp only [processFeatures] at h
    split at h
    next e heq => exact absurd h (by simp)
    next m heq =>
      rcases ih _ l h x hx with h1 | ⟨g, hg, ht, hxg⟩
      · by_cases hm : m = true
        · rw [if_pos hm] at h1
          by_cases hc : f.notam.type.getD strN = strC
          · rw [if_pos hc] at h1
            exact Or.inl h1
          · rw [if_neg hc] at h1
            rcases insertRec_mem h1 with h2 | h2
            · exact Or.inl h2
            · exact Or.inr ⟨f, List.mem_cons_self f rest, hc, h2⟩
        · rw [if_neg hm] at h1
          exact Or.inl h1
      · exact Or.inr ⟨g, List.mem_cons_of_mem f hg, ht, hxg⟩

/-! ## C6 — cancellation exclusion -/

/-- C6: every record in the output of `search_notams` originates (via
`mkRec`) from a feed feature whose type code is not `'C'`; no record derived
from a `NOTAMC` feature is ever emitted, regardless of query, search mode,
regex flag or dedup interactions. -/
theorem notamc_excluded :
    ∀ (compile : Str → Option (Str → Bool)) (feed : RawFeed) (query st : Str)
      (ir : Bool) (l : List NotamOut) (r : NotamOut),
      search_notams compile feed query st ir = Except.ok l → r ∈ l →
      ∃ f, f ∈ feed.features ∧ f.notam.type.getD strN ≠ strC ∧ r = toOut (mkRec f) := by
  intro compile feed query st ir l r h hr
  unfold search_notams at h
  cases hi : searchI compile feed query st ir with
  | error e =>
    rw [hi] at h
    exact absurd h (by simp [Except.map])
  | ok li =>
    rw [hi] at h
    simp only [Except.map] at h
    injection h with h
    subst h
    rcases List.mem_map.mp hr with ⟨x, hx, hxr⟩
    unfold searchI at hi
    split at hi
    next hstat =>
      injection hi with hi
      subst hi
      simp at hx
    next hstat =>
      rcases processFeatures_mem compile query st ir feed.features [] li hi x hx with
        h1 | ⟨f, hf, ht, hxf⟩
      · simp at h1
      · exact ⟨f, hf, ht, by rw [← hxr, hxf]⟩

/-- A cancellation record: same notice as `featLongIntl` but `type = "C"`. -/
def featCancel : Feature :=
  { featLongIntl with notam := { featLongIntl.notam with type := some strC } }

def feedC6 : RawFeed :=
  { status := some strSuccess, features := [featCancel, featShortIntl] }

theorem notamc_excluded_witness :
    search_notams compileNone feedC6 [] strKeyword false =
        Except.ok [toOut (mkRec featShortIntl)]
    ∧ toOut (mkRec featShortIntl) ∈ [toOut (mkRec featShortIntl)]
    ∧ ∃ f, f ∈ feedC6.features ∧ f.notam.type.getD strN ≠ strC
        ∧ toOut (mkRec featShortIntl) = toOut (mkRec f) :=
  ⟨rfl, by simp,
   notamc_excluded compileNone feedC6 [] strKeyword false
     [toOut (mkRec featShortIntl)] (toOut (mkRec featShortIntl)) rfl (by simp)⟩

/-! ## C3 — dedup-key uniqueness -/

deriving instance DecidableEq for Except

/-- A feature that actually reaches the dedup loop on a given search call:
its combined text matches the query (source lines 61-83, outcome
`Except.ok true`) and its type code is not `'C'` (source line 104). -/
abbrev Filtered (compile : Str → Option (Str → Bool)) (query st : Str) (ir : Bool)
    (f : Feature) : Prop :=
  searchMatch compile query st ir (fullTextOf f) = Except.ok true
  ∧ f.notam.type.getD strN ≠ strC

/-- Invariant of the main loop: if any two filtered features (matching,
non-cancellation — the only ones whose records reach the dedup loop) whose
records share a dedup key also pass the similarity check, then the dedup
keys in the accumulator stay pairwise distinct. -/
theorem processFeatures_keys (compile : Str → Option (Str → Bool))
    (query st : Str) (ir : Bool) (allF : List Feature)
    (H : ∀ f ∈ allF, ∀ g ∈ allF,
           Filtered compile query st ir f → Filtered compile query st ir g →
           (mkRec f).nKey = (mkRec g).nKey →
           similarB (mkRec g).location (mkRec f).text (mkRec g).text = true) :
    ∀ (fs : List Feature) (acc l : List RecI),
      (∀ f ∈ fs, f ∈ allF) →
      (∀ x ∈ acc, ∃ f, f ∈ allF ∧ Filtered compile query st ir f ∧ x = mkRec f) →
      (acc.map RecI.nKey).Pairwise (· ≠ ·) →
      processFeatures compile query st ir fs acc = Except.ok l →
      (l.map RecI.nKey).Pairwise (· ≠ ·) := by
  intro fs
  induction fs with
  | nil =>
    intro acc l _ _ hpw h
    simp only [processFeatures] at h
    injection h with h
    subst h
    exact hpw
  | cons f rest ih =>
    intro acc l hsub hprov hpw h
    simp only [processFeatures] at h
    split at h
    next e heq => exact absurd h (by simp)
    next m heq =>
      by_cases hm : m = true
      · by_cases hc : f.notam.type.getD strN = strC
        · rw [if_pos hm, if_pos hc] at h
          exact ih acc l (fun g hg => hsub g (List.mem_cons_of_mem f hg)) hprov hpw h
        · rw [if_pos hm, if_neg hc] at h
          rw [hm] at heq
          apply ih _ l (fun g hg => hsub g (List.mem_cons_of_mem f hg)) ?_ ?_ h
          · intro x hx
            rcases insertRec_mem hx with h1 | h1
            · exact hprov x h1
            · exact ⟨f, hsub f (List.mem_cons_self f rest), ⟨heq, hc⟩, h1⟩
          · unfold insertRec
            cases hmg : mergeInto (mkRec f) acc with
            | some merged =>
              show ((merged).map RecI.nKey).Pairwise (· ≠ ·)
              rw [(mergeInto_some_keys hmg).1]
              exact hpw
            | none =>
              show (((acc ++ [mkRec f])).map RecI.nKey).Pairwise (· ≠ ·)
              rw [List.map_append]
              rw [List.pairwise_append]
              refine ⟨hpw, by simp, ?_⟩
              intro a ha b hb
              simp only [List.map_cons, List.map_nil, List.mem_singleton] at hb
              subst hb
              rcases List.mem_map.mp ha with ⟨e, he, hek⟩
              subst hek
              intro hkey
              rcases hprov e he with ⟨g, hgall, hgfilt, hegg⟩
              have hsim := H g hgall f (hsub f (List.mem_cons_self f rest)) hgfilt
                ⟨heq, hc⟩ (by rw [← hegg]; exact hkey)
              rw [← hegg] at hsim
              exact (mergeInto_none hmg e he) ⟨hkey, hsim⟩
      · rw [if_neg hm] at h
        exact ih acc l (fun g hg => hsub g (List.mem_cons_of_mem f hg)) hprov hpw h

/-- C3 (amended): in the list produced by the dedup loop, no two records
share a dedup key, provided any two filtered records (matching the query and
not of type `'C'` — the only records that reach the dedup loop) with the same
dedup key pass the text-similarity check; without that proviso, same-key
records with dissimilar texts may both be emitted (see the counterexample). -/
theorem dedup_key_unique_amended :
    ∀ (compile : Str → Option (Str → Bool)) (feed : RawFeed) (query st : Str)
      (ir : Bool) (l : List RecI),
      (∀ f ∈ feed.features, ∀ g ∈ feed.features,
         Filtered compile query st ir f → Filtered compile query st ir g →
         (mkRec f).nKey = (mkRec g).nKey →
         similarB (mkRec g).location (mkRec f).text (mkRec g).text = true) →
      searchI compile feed query st ir = Except.ok l →
      (l.map RecI.nKey).Pairwise (· ≠ ·) := by
  intro compile feed query st ir l H h
  unfold searchI at h
  split at h
  next hstat =>
    injection h with h
    subst h
    simp
  next hstat =>
    exact processFeatures_keys compile query st ir feed.features H feed.features [] l
      (fun g hg => hg) (by simp) (by simp) h

def featDupA : Feature :=
  { featLongIntl with notam := { featLongIntl.notam with
      text := some (r"X".toList)
      series := none
      number := none
      year := none
      classification := none } }

def featDupB : Feature :=
  { featDupA with notam := { featDupA.notam with
      text := some (r"TWY A CLSD DUE TO MAINTENANCE WORK UNTIL FURTHER NOTICE".toList) } }

def feedC3 : RawFeed := { status := some strSuccess, features := [featDupA, featDupB] }

/-- C3 counterexample: two features with identical dedup keys but texts that
fail the similarity check (no substring relation, length difference ≥ 30) are
both emitted, so the result set does contain two records with the same dedup
key. -/
theorem dedup_key_cex :
    searchI compileNone feedC3 [] strKeyword false =
        Except.ok [mkRec featDupA, mkRec featDupB]
    ∧ (mkRec featDupA).nKey = (mkRec featDupB).nKey
    ∧ mkRec featDupA ≠ mkRec featDupB
    ∧ search_notams compileNone feedC3 [] strKeyword false =
        Except.ok [toOut (mkRec featDupA), toOut (mkRec featDupB)] :=
  ⟨rfl, by decide, by decide, rfl⟩

theorem dedup_key_unique_amended_witness :
    (∀ f ∈ feedC1.features, ∀ g ∈ feedC1.features,
       Filtered compileNone [] strKeyword false f →
       Filtered compileNone [] strKeyword false g →
       (mkRec f).nKey = (mkRec g).nKey →
       similarB (mkRec g).location (mkRec f).text (mkRec g).text = true)
    ∧ (([mkRec featShortIntl].map RecI.nKey).Pairwise (· ≠ ·)) :=
  ⟨by decide,
   dedup_key_unique_amended compileNone feedC1 [] strKeyword false
     [mkRec featShortIntl] (by decide) rfl⟩
